import Mathlib

/-!
Verification of the `complex_economies` simulation orchestrator
(`complex_economies/model.py`).

The data model and the operations of `ComplexEconomy` are shallowly embedded:
Python `Decimal` scalars become `ℚ` (exact arithmetic, as the source demands),
the scheduler population `self.schedule.agents` becomes a `List Firm`, and
fallible code (Python exceptions: division by zero, indexing an empty
sequence) returns `Except PyErr`.  The process-wide random source is
modelled as a stream `rng : ℕ → ℕ` of draws consumed in order.
-/

namespace ComplexEconomies

/-- Sub-entity of a capital-good firm (the machine it produces). -/
structure Machine where
  labour_productivity_coefficient : ℚ
  price : ℚ
deriving DecidableEq

/-- The two agent groups of the model (`ComplexEconomy.groups`). -/
inductive Group where
  | consumption_firm
  | capital_firm
deriving DecidableEq

/-- Firm agent state, as read by the orchestrator.  Fields are the ones the
embedded model-level functions access (`price`, `market_share`, ...). -/
structure Firm where
  unique_id : ℕ
  group : Group
  bankrupt : Bool
  market_share : ℚ
  liquid_assets : ℚ
  price : ℚ
  competitiveness : ℚ
  labour_demand : ℚ
  capital_stock : ℚ
  production : ℚ
  inventory : ℚ
  expansion_investment : ℚ
  replacement_investment : ℚ
  sales : ℚ
  output : ℚ
  machine : Machine
deriving DecidableEq

/-- Python exceptions surfaced by the embedded code.  `indexError` is the
built-in error raised by `random.choice` on an empty sequence (and by any
out-of-range sequence access); `divisionError` stands for the built-in
division-by-zero family raised by `Decimal` division.
`noSurvivorsAvailable` is a dedicated replacement-exhaustion condition that
appears nowhere in the source; it exists so that theorems can state that the
code does not raise such a dedicated condition. -/
inductive PyErr where
  | indexError
  | divisionError
  | noSurvivorsAvailable
deriving DecidableEq

/-- Aggregate state of `ComplexEconomy`: the mutable model scalars
(class attributes and fields set in `__init__`), the parameters the embedded
functions read, and the scheduler population `schedule.agents`. -/
structure ModelState where
  market_wage : ℚ
  cpi : ℚ
  delta_cpi : ℚ
  avg_labour_prod : ℚ
  delta_productivity : ℚ
  labour_supply : ℚ
  employment : ℚ
  unemployment : ℚ
  unemployment_rate : ℚ
  delta_unemployment : ℚ
  labour_demand : ℚ
  consumption : ℚ
  expansion_investment : ℚ
  replacement_investment : ℚ
  agg_production : ℚ
  agg_inventories : ℚ
  avg_cap_price : ℚ
  average_unit_labour_cost : ℚ
  avg_comp_competitiveness : ℚ
  avg_cap_competitiveness : ℚ
  social_policy : String
  wage_share : ℚ
  labour_supply_growth : ℚ
  cpi_weight : ℚ
  avg_lp_weight : ℚ
  unemployment_weight : ℚ
  agents : List Firm
deriving DecidableEq

/-- `ComplexEconomy.get_group`, on the population list.  Python filters the
scheduler agents by group, then (unless `include_bankrupt`) drops firms whose
`bankrupt` flag is set. -/
def getGroupList (agents : List Firm) (group : Group) (include_bankrupt : Bool) :
    List Firm :=
  let firms := agents.filter (fun a => decide (a.group = group))
  if include_bankrupt then firms else firms.filter (fun f => !f.bankrupt)

/-- `ComplexEconomy.get_group` (default `include_bankrupt=False`). -/
def get_group (s : ModelState) (group : Group) : List Firm :=
  getGroupList s.agents group false

/-- `ComplexEconomy.compute_average_price`.  The unweighted branch divides by
`len(prices)`: with no live firm in the group Python raises a division error,
modelled by `Except.error`. -/
def compute_average_price (s : ModelState) (group : Group) (weighted : Bool) :
    Except PyErr ℚ :=
  let firms := get_group s group
  if !weighted then
    let prices := firms.map (fun firm => firm.price)
    if prices.length = 0 then .error .divisionError
    else .ok (prices.sum / (prices.length : ℚ))
  else
    .ok ((firms.map (fun firm => firm.market_share * firm.price)).sum)

/-- `ComplexEconomy.update_average_prices`.  `delta_cpi` divides by the old
`self.cpi`; with `Decimal` arithmetic a zero old CPI raises a division
error. -/
def update_average_prices (s : ModelState) : Except PyErr ModelState := do
  let cpi ← compute_average_price s .consumption_firm false
  let delta_cpi ←
    if s.cpi = 0 then Except.error PyErr.divisionError
    else Except.ok ((cpi - s.cpi) / s.cpi)
  let avg_cap ← compute_average_price s .capital_firm false
  Except.ok {s with delta_cpi := delta_cpi, cpi := cpi, avg_cap_price := avg_cap}

/-- `ComplexEconomy.update_avg_ulc`.  The per-machine unit labour cost is
delegated to `machine.compute_unit_labour_cost(self)`, which lives in the
agents module outside the embedded source; it is passed in as `ulc`. -/
def update_avg_ulc (ulc : Machine → ModelState → ℚ) (s : ModelState) :
    Except PyErr ModelState :=
  let capital_firms := get_group s .capital_firm
  let lpcs := capital_firms.map (fun a => ulc a.machine s)
  if lpcs.length = 0 then .error .divisionError
  else .ok {s with average_unit_labour_cost := lpcs.sum / (lpcs.length : ℚ)}

/-- `ComplexEconomy.update_average_labour_productivity`. -/
def update_average_labour_productivity (s : ModelState) : Except PyErr ModelState :=
  let firms := get_group s .capital_firm
  if firms.length = 0 then .error .divisionError
  else
    let avg :=
      (firms.map (fun f => f.machine.labour_productivity_coefficient)).sum
        / (firms.length : ℚ)
    if s.avg_labour_prod = 0 then .error .divisionError
    else .ok {s with
      delta_productivity := (avg - s.avg_labour_prod) / s.avg_labour_prod,
      avg_labour_prod := avg}

/-- Nearest integer with ties to even: the rounding `Decimal` uses under the
default `ROUND_HALF_EVEN` context. -/
def roundHalfEvenInt (q : ℚ) : ℤ :=
  let f := ⌊q⌋
  if q - f < 1/2 then f
  else if 1/2 < q - f then f + 1
  else if f % 2 = 0 then f else f + 1

/-- Python `round(x, 2)` on a `Decimal`: quantize to two decimal places,
ties to even. -/
def round2 (q : ℚ) : ℚ := (roundHalfEvenInt (q * 100) : ℚ) / 100

/-- `ComplexEconomy.compute_sector_competitiveness`. -/
def compute_sector_competitiveness (s : ModelState) (group : Group) : ℚ :=
  round2 ((get_group s group).map (fun f => f.competitiveness * f.market_share)).sum

/-- `ComplexEconomy.update_sector_competitiveness`. -/
def update_sector_competitiveness (s : ModelState) : ModelState :=
  {s with
    avg_comp_competitiveness := compute_sector_competitiveness s .consumption_firm,
    avg_cap_competitiveness := compute_sector_competitiveness s .capital_firm}

/-- `ComplexEconomy.aggregate_investment`. -/
def aggregate_investment (s : ModelState) : ModelState :=
  let firms := get_group s .consumption_firm
  {s with
    expansion_investment := (firms.map (fun f => f.expansion_investment)).sum,
    replacement_investment := (firms.map (fun f => f.replacement_investment)).sum}

/-- `ComplexEconomy.update_labour_supply`. -/
def update_labour_supply (s : ModelState) : ModelState :=
  {s with labour_supply := s.labour_supply * (1 + s.labour_supply_growth)}

/-- `ComplexEconomy.aggregate_labour_demand`: the sum runs over
`self.schedule.agents`, i.e. the whole population, with no group or
bankruptcy filter. -/
def aggregate_labour_demand (s : ModelState) : ModelState :=
  {s with labour_demand := (s.agents.map (fun a => a.labour_demand)).sum}

/-- `ComplexEconomy.update_employment`.  The rate divides by
`self.labour_supply`; with `Decimal` arithmetic a zero labour supply raises a
division error. -/
def update_employment (s : ModelState) : Except PyErr ModelState :=
  let employment := min s.labour_demand s.labour_supply
  let unemployment := max 0 (s.labour_supply - employment)
  if s.labour_supply = 0 then .error .divisionError
  else
    let rate := unemployment / s.labour_supply
    .ok {s with
      employment := employment,
      unemployment := unemployment,
      unemployment_rate := rate,
      delta_unemployment := rate - s.unemployment_rate}

/-- `ComplexEconomy.update_market_wage` (wage-setting weights ψ1..ψ3). -/
def update_market_wage (s : ModelState) : ModelState :=
  {s with market_wage := s.market_wage * (
    1 + s.cpi_weight * s.delta_cpi
      + s.avg_lp_weight * s.delta_productivity
      + s.unemployment_weight * s.delta_unemployment)}

/-- `ComplexEconomy.compute_consumption`. -/
def compute_consumption (s : ModelState) : ℚ :=
  let household_consumption := s.market_wage * s.employment
  let government_consumption :=
    if s.social_policy = "welfare" then s.wage_share * s.unemployment
    else s.wage_share * s.market_wage * s.labour_supply
  household_consumption + government_consumption

/-- `ComplexEconomy.update_consumption`. -/
def update_consumption (s : ModelState) : ModelState :=
  {s with consumption := compute_consumption s}

/-- `ComplexEconomy.aggregate_production`. -/
def aggregate_production (s : ModelState) : ModelState :=
  {s with agg_production := ((get_group s .consumption_firm).map (fun f => f.production)).sum}

/-- `ComplexEconomy.aggregate_inventories`. -/
def aggregate_inventories (s : ModelState) : ModelState :=
  {s with agg_inventories := ((get_group s .consumption_firm).map (fun f => f.inventory)).sum}

/-- The exit condition of `ComplexEconomy.exit_and_entry`:
`f.market_share <= 0 or f.liquid_assets < 0`. -/
def firmIsDead (f : Firm) : Bool :=
  decide (f.market_share ≤ 0) || decide (f.liquid_assets < 0)

/-- `firm.bankrupt = True`.  The Python statement mutates one object; on the
value-level population list the object is addressed by its identifier
(identifiers are distinct whenever the theorems below assume `Nodup`). -/
def markBankruptId (i : ℕ) (agents : List Firm) : List Firm :=
  agents.map (fun a => if a.unique_id = i then {a with bankrupt := true} else a)

/-- `max([a.unique_id for a in self.schedule.agents])` (the call sites only
reach it with a non-empty population, where the `0` base is inert). -/
def maxId (agents : List Firm) : ℕ :=
  (agents.map (fun a => a.unique_id)).foldr max 0

/-- `self.random.choice(seq)`: picks the element selected by the next random
draw `r`; on an empty sequence Python raises the built-in `IndexError`. -/
def listChoice (l : List Firm) (r : ℕ) : Except PyErr Firm :=
  if h : l.length = 0 then .error .indexError
  else .ok (l.get ⟨r % l.length, Nat.mod_lt r (Nat.pos_of_ne_zero h)⟩)

/-- Modelled from the spec: the `ConsumptionGoodFirm` / `CapitalGoodFirm`
constructors live in the agents module, which is outside the embedded source.
Per the spec, the replacement firm of `exit_and_entry` clones the chosen
survivor `liquid_assets` and `market_share`; a consumption-sector replacement
also clones the survivor `capital_stock` (a capital-sector replacement is
constructed with `capital_stock=None`, modelled as `0`); a capital-sector
replacement has the survivor machine `labour_productivity_coefficient` and
`price` copied onto its machine after construction.  Behavioural fields not
fixed by the spec start at `0`. -/
def mkReplacement (group : Group) (next_id : ℕ) (copy_firm : Firm) : Firm :=
  match group with
  | .consumption_firm =>
    { unique_id := next_id
      group := .consumption_firm
      bankrupt := false
      market_share := copy_firm.market_share
      liquid_assets := copy_firm.liquid_assets
      capital_stock := copy_firm.capital_stock
      price := 0, competitiveness := 0, labour_demand := 0
      production := 0, inventory := 0
      expansion_investment := 0, replacement_investment := 0
      sales := 0, output := 0
      machine := { labour_productivity_coefficient := 0, price := 0 } }
  | .capital_firm =>
    { unique_id := next_id
      group := .capital_firm
      bankrupt := false
      market_share := copy_firm.market_share
      liquid_assets := copy_firm.liquid_assets
      capital_stock := 0
      price := 0, competitiveness := 0, labour_demand := 0
      production := 0, inventory := 0
      expansion_investment := 0, replacement_investment := 0
      sales := 0, output := 0
      machine := { labour_productivity_coefficient :=
                     copy_firm.machine.labour_productivity_coefficient
                   price := copy_firm.machine.price } }

/-- The `for firm in dead_firms` loop body of `ComplexEconomy.exit_and_entry`:
mark the dead firm bankrupt, draw a survivor, allocate
`max(unique_id) + 1`, build the replacement and append it to the scheduler
population (the scheduler add, modelled from the spec, appends in insertion
order). -/
def processDeadFirms (group : Group) (rng : ℕ → ℕ) :
    List Firm → List Firm → List Firm → ℕ → Except PyErr (List Firm × ℕ)
  | [], _, agents, k => .ok (agents, k)
  | firm :: rest, alive_firms, agents, k =>
    let marked := markBankruptId firm.unique_id agents
    match listChoice alive_firms (rng k) with
    | .error e => .error e
    | .ok copy_firm =>
      let next_id := maxId marked + 1
      let new_firm := mkReplacement group next_id copy_firm
      processDeadFirms group rng rest alive_firms (marked ++ [new_firm]) (k + 1)

/-- `dead_firms` of one `exit_and_entry` group round: live firms of the group
with `market_share <= 0 or liquid_assets < 0`. -/
def deadOf (group : Group) (agents : List Firm) : List Firm :=
  (getGroupList agents group false).filter firmIsDead

/-- `alive_firms` of one `exit_and_entry` group round; Python writes
`[f for f in firms if f not in dead_firms]`, which (object identity, each
object listed once) keeps exactly the live firms failing the exit
condition. -/
def aliveOf (group : Group) (agents : List Firm) : List Firm :=
  (getGroupList agents group false).filter (fun f => !(firmIsDead f))

/-- One group round of `ComplexEconomy.exit_and_entry`. -/
def exitEntryGroup (rng : ℕ → ℕ) (group : Group) (agents : List Firm) (k : ℕ) :
    Except PyErr (List Firm × ℕ) :=
  processDeadFirms group rng (deadOf group agents) (aliveOf group agents) agents k

/-- `ComplexEconomy.exit_and_entry` on the population list: the
`for group in self.groups` loop, consumption firms first. -/
def exit_and_entry_agents (rng : ℕ → ℕ) (agents : List Firm) :
    Except PyErr (List Firm) :=
  match exitEntryGroup rng .consumption_firm agents 0 with
  | .error e => .error e
  | .ok (a1, k1) =>
    match exitEntryGroup rng .capital_firm a1 k1 with
    | .error e => .error e
    | .ok (a2, _) => .ok a2

/-- `ComplexEconomy.exit_and_entry` on the model state. -/
def exit_and_entry (rng : ℕ → ℕ) (s : ModelState) : Except PyErr ModelState :=
  match exit_and_entry_agents rng s.agents with
  | .error e => .error e
  | .ok l => .ok {s with agents := l}

/-- The parameter-dictionary keys that the embedded part of
`ComplexEconomy.__init__` reads. -/
structure Parameters where
  social_policy : String
  wage_share : ℚ
  labour_supply_growth : ℚ
  cpi_weight : ℚ
  avg_lp_weight : ℚ
  unemployment_weight : ℚ
  n_consumption_firms : ℕ
  n_capital_firms : ℕ
deriving DecidableEq

/-- Modelled from the spec: the initial `CapitalGoodFirm` built in
`__init__` (constructor in the agents module, outside the embedded source);
identifier, group, cloneable scalars as passed, machine fresh. -/
def mkInitialCapitalFirm (i : ℕ) (liquid_assets market_share : ℚ) : Firm :=
  { unique_id := i
    group := .capital_firm
    bankrupt := false
    market_share := market_share
    liquid_assets := liquid_assets
    capital_stock := 0
    price := 0, competitiveness := 0, labour_demand := 0
    production := 0, inventory := 0
    expansion_investment := 0, replacement_investment := 0
    sales := 0, output := 0
    machine := { labour_productivity_coefficient := 0, price := 0 } }

/-- Modelled from the spec: the initial `ConsumptionGoodFirm` built in
`__init__`. -/
def mkInitialConsumptionFirm (i : ℕ) (liquid_assets capital_stock market_share : ℚ) :
    Firm :=
  { unique_id := i
    group := .consumption_firm
    bankrupt := false
    market_share := market_share
    liquid_assets := liquid_assets
    capital_stock := capital_stock
    price := 0, competitiveness := 0, labour_demand := 0
    production := 0, inventory := 0
    expansion_investment := 0, replacement_investment := 0
    sales := 0, output := 0
    machine := { labour_productivity_coefficient := 0, price := 0 } }

/-- `ComplexEconomy.__init__`, restricted to the aggregate-state bootstrap the
claims are about.  In source order: `max_capital_labour_share`
(divides by `n_consumption_firms + n_capital_firms`), `init_market_share`
(divides by each sector size), `employment = labour_supply`,
`consumption = compute_consumption()`, then
`unemployment_rate = unemployment / employment` — the class attribute
`unemployment` is `d(0)`, and `Decimal` division by a zero `employment`
raises a division error.  Firm creation follows, capital firms with
identifiers `0..n_capital-1`, consumption firms after them. -/
def init (p : Parameters)
    (market_wage cpi avg_labour_productivity liquid_assets capital_stock
      labour_supply : ℚ) : Except PyErr ModelState :=
  if p.n_consumption_firms + p.n_capital_firms = 0 then .error .divisionError
  else if p.n_consumption_firms = 0 then .error .divisionError
  else if p.n_capital_firms = 0 then .error .divisionError
  else
    let init_market_share : ℚ × ℚ :=
      (1 / (p.n_consumption_firms : ℚ), 1 / (p.n_capital_firms : ℚ))
    let employment := labour_supply
    let s0 : ModelState :=
      { market_wage := market_wage
        cpi := cpi
        delta_cpi := 0
        avg_labour_prod := avg_labour_productivity
        delta_productivity := 0
        labour_supply := labour_supply
        employment := employment
        unemployment := 0
        unemployment_rate := 0
        delta_unemployment := 0
        labour_demand := 0
        consumption := 0
        expansion_investment := 0
        replacement_investment := 0
        agg_production := 0
        agg_inventories := 0
        avg_cap_price := 0
        average_unit_labour_cost := 0
        avg_comp_competitiveness := 0
        avg_cap_competitiveness := 0
        social_policy := p.social_policy
        wage_share := p.wage_share
        labour_supply_growth := p.labour_supply_growth
        cpi_weight := p.cpi_weight
        avg_lp_weight := p.avg_lp_weight
        unemployment_weight := p.unemployment_weight
        agents := [] }
    let consumption := compute_consumption s0
    if employment = 0 then .error .divisionError
    else
      let rate := (0 : ℚ) / employment
      let capFirms := (List.range p.n_capital_firms).map
        (fun i => mkInitialCapitalFirm i liquid_assets init_market_share.2)
      let consFirms := (List.range p.n_consumption_firms).map
        (fun i => mkInitialConsumptionFirm (i + p.n_capital_firms) liquid_assets
          capital_stock init_market_share.1)
      .ok {s0 with
        consumption := consumption
        unemployment_rate := rate
        agents := capFirms ++ consFirms}

/-- `ComplexEconomy.investment` (derived property). -/
def investment (s : ModelState) : ℚ :=
  s.expansion_investment + s.replacement_investment

/-! Derived notions used to state the theorems. -/

/-- The live (non-bankrupt) firms of a population. -/
def liveFirms (l : List Firm) : List Firm := l.filter (fun f => !f.bankrupt)

/-- Membership predicate of `dead_firms` for one group round, as a single
boolean: live firm of the group satisfying the exit condition. -/
def deadPredB (g : Group) (a : Firm) : Bool :=
  decide (a.group = g) && (!a.bankrupt && firmIsDead a)

/-- Membership predicate of `alive_firms` for one group round. -/
def alivePredB (g : Group) (a : Firm) : Bool :=
  decide (a.group = g) && (!a.bankrupt && !(firmIsDead a))

/-- Marking pass of a whole `exit_and_entry` round: fold of the
per-dead-firm `bankrupt = True` assignments. -/
def markAll (ds : List Firm) (agents : List Firm) : List Firm :=
  ds.foldl (fun acc d => markBankruptId d.unique_id acc) agents

/-- The effect of `exit_and_entry` on one pre-existing firm: the bankrupt
flag is set exactly on live firms satisfying the exit condition. -/
def markDeadFlag (f : Firm) : Firm :=
  if !f.bankrupt && firmIsDead f then {f with bankrupt := true} else f

/-- What a replacement firm clones from the chosen survivor, per group:
`liquid_assets` and `market_share` always; `capital_stock` for
consumption-sector replacements; the machine coefficient and price for
capital-sector replacements. -/
def cloneRel (g : Group) (f c : Firm) : Prop :=
  f.liquid_assets = c.liquid_assets ∧
  f.market_share = c.market_share ∧
  (g = Group.consumption_firm → f.capital_stock = c.capital_stock) ∧
  (g = Group.capital_firm →
    f.machine.labour_productivity_coefficient
        = c.machine.labour_productivity_coefficient ∧
      f.machine.price = c.machine.price)

/-- Forgets the population, keeping every aggregate scalar: two states with
equal `eraseAgents` images hold the same computed values. -/
def eraseAgents (s : ModelState) : ModelState := {s with agents := []}

/-! Concrete fixtures for the witness theorems. -/

/-- A model state with all scalars zero, a non-welfare policy and an empty
population; witness states are built from it by record update. -/
def base : ModelState :=
  { market_wage := 0, cpi := 0, delta_cpi := 0, avg_labour_prod := 0,
    delta_productivity := 0, labour_supply := 0, employment := 0,
    unemployment := 0, unemployment_rate := 0, delta_unemployment := 0,
    labour_demand := 0, consumption := 0, expansion_investment := 0,
    replacement_investment := 0, agg_production := 0, agg_inventories := 0,
    avg_cap_price := 0, average_unit_labour_cost := 0,
    avg_comp_competitiveness := 0, avg_cap_competitiveness := 0,
    social_policy := "flat", wage_share := 0, labour_supply_growth := 0,
    cpi_weight := 0, avg_lp_weight := 0, unemployment_weight := 0,
    agents := [] }

/-- A live capital-good firm. -/
def fCap0 : Firm :=
  { unique_id := 0, group := .capital_firm, bankrupt := false,
    market_share := 1, liquid_assets := 5, price := 3, competitiveness := 1,
    labour_demand := 2, capital_stock := 0, production := 0, inventory := 0,
    expansion_investment := 0, replacement_investment := 0, sales := 0,
    output := 0, machine := ⟨2, 3⟩ }

/-- A live consumption-good firm (survivor). -/
def fCons1 : Firm :=
  { unique_id := 1, group := .consumption_firm, bankrupt := false,
    market_share := 1, liquid_assets := 4, price := 2, competitiveness := 1,
    labour_demand := 3, capital_stock := 7, production := 0, inventory := 0,
    expansion_investment := 0, replacement_investment := 0, sales := 0,
    output := 0, machine := ⟨0, 0⟩ }

/-- A consumption-good firm meeting the exit condition (zero market share). -/
def fCons2 : Firm :=
  { unique_id := 2, group := .consumption_firm, bankrupt := false,
    market_share := 0, liquid_assets := 3, price := 4, competitiveness := 1,
    labour_demand := 1, capital_stock := 9, production := 0, inventory := 0,
    expansion_investment := 0, replacement_investment := 0, sales := 0,
    output := 0, machine := ⟨0, 0⟩ }

/-- Witness population: one capital survivor, one consumption survivor, one
dead consumption firm. -/
def agentsW : List Firm := [fCap0, fCons1, fCons2]

/-- Witness random stream: always draw index 0. -/
def rngW : ℕ → ℕ := fun _ => 0

/-- The population `exit_and_entry` produces from `agentsW` under `rngW`. -/
def outW : List Firm :=
  [fCap0, fCons1, {fCons2 with bankrupt := true},
   mkReplacement .consumption_firm 3 fCons1]

/-- A dead consumption firm with no surviving peer. -/
def fCons9 : Firm :=
  { unique_id := 9, group := .consumption_firm, bankrupt := false,
    market_share := 0, liquid_assets := 2, price := 1, competitiveness := 1,
    labour_demand := 1, capital_stock := 3, production := 0, inventory := 0,
    expansion_investment := 0, replacement_investment := 0, sales := 0,
    output := 0, machine := ⟨0, 0⟩ }

/-- Population whose consumption group has a dead firm and no survivor. -/
def agentsNS : List Firm := [fCons9]

/-- A dead capital firm with no surviving peer. -/
def fCap8 : Firm :=
  { unique_id := 8, group := .capital_firm, bankrupt := false,
    market_share := 0, liquid_assets := 2, price := 1, competitiveness := 1,
    labour_demand := 1, capital_stock := 0, production := 0, inventory := 0,
    expansion_investment := 0, replacement_investment := 0, sales := 0,
    output := 0, machine := ⟨1, 1⟩ }

/-- Population whose capital group has a dead firm and no survivor, while
the consumption group needs no replacement. -/
def agentsNC : List Firm := [fCons1, fCap8]

/-- A bankrupt firm with zero labour demand. -/
def b0 : Firm := {fCons1 with unique_id := 7, bankrupt := true, labour_demand := 0}

/-- The same bankrupt firm with labour demand 5. -/
def b5 : Firm := {b0 with labour_demand := 5}

/-- State whose only agent is the bankrupt firm `b0`. -/
def st1 : ModelState := {base with agents := [b0]}

/-- State whose only agent is the bankrupt firm `b5`: same live agents and
same scalars as `st1`. -/
def st2 : ModelState := {base with agents := [b5]}

/-- Employment-update witness state. -/
def s2w : ModelState := {base with labour_demand := 1, labour_supply := 1}

/-- The state `update_employment` produces from `s2w`. -/
def s2w' : ModelState :=
  {s2w with
    employment := 1, unemployment := 0, unemployment_rate := 0,
    delta_unemployment := 0}

/-- Price-update witness state: one live consumption firm (price 2), one
live capital firm (price 3), old CPI 2. -/
def s7w : ModelState := {base with cpi := 2, agents := [fCons1, fCap0]}

/-- The state `update_average_prices` produces from `s7w`. -/
def s7w' : ModelState := {s7w with cpi := 2, delta_cpi := 0, avg_cap_price := 3}

/-- Aggregation-invariance witness state: one live consumption firm. -/
def s1w : ModelState := {base with agents := [fCons1]}

/-- Alternative population for `s1w`: same live firm plus a bankrupt one. -/
def l2W : List Firm := [fCons1, b5]

/-- A unit-labour-cost function for the witness (machine price). -/
def ulcW : Machine → ModelState → ℚ := fun m _ => m.price

/-- Initialization witness parameters. -/
def p10 : Parameters :=
  { social_policy := "welfare", wage_share := 1, labour_supply_growth := 0,
    cpi_weight := 0, avg_lp_weight := 0, unemployment_weight := 0,
    n_consumption_firms := 2, n_capital_firms := 1 }

end ComplexEconomies

deriving instance DecidableEq for Except

namespace ComplexEconomies

/-! Basic facts about the population helpers. -/

lemma getGroupList_false_eq (agents : List Firm) (g : Group) :
    getGroupList agents g false
      = agents.filter (fun a => decide (a.group = g) && !a.bankrupt) := by
  show (agents.filter (fun a => decide (a.group = g))).filter (fun f => !f.bankrupt)
      = _
  rw [List.filter_filter]
  exact List.filter_congr (fun a _ => Bool.and_comm _ _)

lemma deadOf_eq (g : Group) (agents : List Firm) :
    deadOf g agents = agents.filter (deadPredB g) := by
  unfold deadOf
  rw [getGroupList_false_eq, List.filter_filter]
  refine List.filter_congr (fun a _ => ?_)
  simp [deadPredB, Bool.and_comm, Bool.and_assoc, Bool.and_left_comm]

lemma aliveOf_eq (g : Group) (agents : List Firm) :
    aliveOf g agents = agents.filter (alivePredB g) := by
  unfold aliveOf
  rw [getGroupList_false_eq, List.filter_filter]
  refine List.filter_congr (fun a _ => ?_)
  simp [alivePredB, Bool.and_comm, Bool.and_assoc, Bool.and_left_comm]

lemma deadOf_subset (g : Group) (agents : List Firm) :
    ∀ a ∈ deadOf g agents, a ∈ agents := by
  intro a ha
  rw [deadOf_eq] at ha
  exact (List.mem_filter.mp ha).1

lemma mem_aliveOf_iff (g : Group) (agents : List Firm) (a : Firm) :
    a ∈ aliveOf g agents ↔
      a ∈ agents ∧ a.group = g ∧ a.bankrupt = false ∧ firmIsDead a = false := by
  rw [aliveOf_eq, List.mem_filter]
  unfold alivePredB
  constructor
  · rintro ⟨ha, hb⟩
    simp only [Bool.and_eq_true, decide_eq_true_eq, Bool.not_eq_true'] at hb
    exact ⟨ha, hb.1, hb.2.1, hb.2.2⟩
  · rintro ⟨ha, h1, h2, h3⟩
    refine ⟨ha, ?_⟩
    simp [h1, h2, h3]

lemma maxId_nil : maxId [] = 0 := rfl

lemma maxId_cons (a : Firm) (l : List Firm) :
    maxId (a :: l) = max a.unique_id (maxId l) := rfl

lemma maxId_append (l1 l2 : List Firm) :
    maxId (l1 ++ l2) = max (maxId l1) (maxId l2) := by
  induction l1 with
  | nil => simp [maxId_nil, List.nil_append]
  | cons a l ih => rw [List.cons_append, maxId_cons, maxId_cons, ih, Nat.max_assoc]

lemma mem_le_maxId {a : Firm} {l : List Firm} (h : a ∈ l) :
    a.unique_id ≤ maxId l := by
  induction l with
  | nil => cases h
  | cons b l ih =>
    rw [maxId_cons]
    rcases List.mem_cons.mp h with rfl | h2
    · exact Nat.le_max_left _ _
    · exact Nat.le_trans (ih h2) (Nat.le_max_right _ _)

/-! Facts about the bankruptcy-marking passes. -/

lemma markBankruptId_ids (i : ℕ) (l : List Firm) :
    (markBankruptId i l).map (fun a => a.unique_id)
      = l.map (fun a => a.unique_id) := by
  unfold markBankruptId
  rw [List.map_map]
  refine List.map_congr_left (fun a _ => ?_)
  by_cases hc : a.unique_id = i <;> simp [hc]

lemma maxId_markBankruptId (i : ℕ) (l : List Firm) :
    maxId (markBankruptId i l) = maxId l := by
  unfold maxId
  rw [markBankruptId_ids]

lemma markBankruptId_append (i : ℕ) (l1 l2 : List Firm) :
    markBankruptId i (l1 ++ l2) = markBankruptId i l1 ++ markBankruptId i l2 := by
  unfold markBankruptId
  exact List.map_append _ _ _

lemma markBankruptId_of_not_mem (i : ℕ) (l : List Firm)
    (h : ∀ x ∈ l, x.unique_id ≠ i) : markBankruptId i l = l := by
  unfold markBankruptId
  have : l.map (fun a => if a.unique_id = i then {a with bankrupt := true} else a)
      = l.map (fun a => a) := by
    refine List.map_congr_left (fun a ha => ?_)
    rw [if_neg (h a ha)]
  rw [this, List.map_id']

lemma markAll_nil (agents : List Firm) : markAll [] agents = agents := rfl

lemma markAll_cons (d : Firm) (ds agents : List Firm) :
    markAll (d :: ds) agents = markAll ds (markBankruptId d.unique_id agents) := rfl

lemma markAll_append_agents (ds l1 l2 : List Firm) :
    markAll ds (l1 ++ l2) = markAll ds l1 ++ markAll ds l2 := by
  induction ds generalizing l1 l2 with
  | nil => rfl
  | cons d ds ih =>
    rw [markAll_cons, markBankruptId_append, ih, markAll_cons, markAll_cons]

lemma markAll_ids (ds : List Firm) (l : List Firm) :
    (markAll ds l).map (fun a => a.unique_id) = l.map (fun a => a.unique_id) := by
  induction ds generalizing l with
  | nil => rfl
  | cons d ds ih => rw [markAll_cons, ih, markBankruptId_ids]

lemma maxId_markAll (ds l : List Firm) : maxId (markAll ds l) = maxId l := by
  unfold maxId
  rw [markAll_ids]

lemma markAll_of_not_mem (ds l : List Firm)
    (h : ∀ d ∈ ds, ∀ x ∈ l, x.unique_id ≠ d.unique_id) : markAll ds l = l := by
  induction ds with
  | nil => rfl
  | cons d ds ih =>
    rw [markAll_cons,
      markBankruptId_of_not_mem _ _ (fun x hx => h d (List.mem_cons_self d ds) x hx),
      ih (fun e he x hx => h e (List.mem_cons_of_mem d he) x hx)]

lemma markAll_eq_map (ds : List Firm)
    (hnds : (ds.map (fun a => a.unique_id)).Nodup) (agents : List Firm) :
    markAll ds agents = agents.map (fun a =>
      if a.unique_id ∈ ds.map (fun x => x.unique_id)
      then {a with bankrupt := true} else a) := by
  induction ds generalizing agents with
  | nil =>
    rw [markAll_nil]
    have : agents.map (fun a =>
        if a.unique_id ∈ ([] : List Firm).map (fun x => x.unique_id)
        then {a with bankrupt := true} else a) = agents.map (fun a => a) := by
      refine List.map_congr_left (fun a _ => ?_)
      simp
    rw [this, List.map_id']
  | cons d ds ih =>
    rw [List.map_cons] at hnds
    have hd : d.unique_id ∉ ds.map (fun x => x.unique_id) :=
      (List.nodup_cons.mp hnds).1
    rw [markAll_cons, ih (List.nodup_cons.mp hnds).2]
    unfold markBankruptId
    rw [List.map_map]
    refine List.map_congr_left (fun a _ => ?_)
    simp only [Function.comp]
    by_cases h1 : a.unique_id = d.unique_id
    · have : ({a with bankrupt := true} : Firm).unique_id ∉
          ds.map (fun x => x.unique_id) := by
        show a.unique_id ∉ _
        rw [h1]; exact hd
      simp [h1, this, List.map_cons, List.mem_cons]
    · simp [h1, List.map_cons, List.mem_cons]

end ComplexEconomies

namespace ComplexEconomies

/-! The survivor draw and the replacement constructor. -/

lemma listChoice_ok_mem {l : List Firm} {r : ℕ} {f : Firm}
    (h : listChoice l r = .ok f) : f ∈ l := by
  unfold listChoice at h
  split at h
  · cases h
  · cases h
    exact List.get_mem _ _ _

lemma listChoice_nil (r : ℕ) : listChoice [] r = .error .indexError := rfl

lemma mkReplacement_group (g : Group) (n : ℕ) (c : Firm) :
    (mkReplacement g n c).group = g := by
  cases g <;> rfl

lemma mkReplacement_bankrupt (g : Group) (n : ℕ) (c : Firm) :
    (mkReplacement g n c).bankrupt = false := by
  cases g <;> rfl

lemma mkReplacement_id (g : Group) (n : ℕ) (c : Firm) :
    (mkReplacement g n c).unique_id = n := by
  cases g <;> rfl

lemma mkReplacement_cloneRel (g : Group) (n : ℕ) (c : Firm) :
    cloneRel g (mkReplacement g n c) c := by
  cases g with
  | consumption_firm =>
    refine ⟨rfl, rfl, fun _ => rfl, fun h => ?_⟩
    exact absurd h (by decide)
  | capital_firm =>
    refine ⟨rfl, rfl, fun h => ?_, fun _ => ⟨rfl, rfl⟩⟩
    exact absurd h (by decide)

/-! The replacement loop: full characterization of a successful run. -/

lemma processDeadFirms_ok_spec (group : Group) (rng : ℕ → ℕ) :
    ∀ (dead : List Firm), ∀ (alive agents : List Firm) (k : ℕ)
      (out : List Firm) (kOut : ℕ),
      processDeadFirms group rng dead alive agents k = .ok (out, kOut) →
      (∀ d ∈ dead, d.unique_id ≤ maxId agents) →
      ∃ reps : List Firm,
        out = markAll dead agents ++ reps ∧
        reps.length = dead.length ∧
        maxId out = maxId agents + dead.length ∧
        (∀ j (hj : j < reps.length),
          (reps.get ⟨j, hj⟩).unique_id = maxId agents + j + 1) ∧
        (∀ f ∈ reps, f.group = group ∧ f.bankrupt = false ∧
          ∃ c, c ∈ alive ∧ cloneRel group f c) := by
  intro dead
  induction dead with
  | nil =>
    intro alive agents k out kOut h _
    simp only [processDeadFirms, Except.ok.injEq, Prod.mk.injEq] at h
    refine ⟨[], ?_, rfl, ?_, ?_, ?_⟩
    · rw [markAll_nil, List.append_nil, h.1]
    · rw [← h.1]; simp
    · intro j hj; cases hj
    · intro f hf; cases hf
  | cons d ds ih =>
    intro alive agents k out kOut h hids
    rw [processDeadFirms] at h
    cases hc : listChoice alive (rng k) with
    | error e => rw [hc] at h; cases h
    | ok c =>
      rw [hc] at h
      set marked := markBankruptId d.unique_id agents with hmarked
      set nf := mkReplacement group (maxId marked + 1) c with hnf
      have hMagents : maxId marked = maxId agents := maxId_markBankruptId _ _
      have hMnf : nf.unique_id = maxId agents + 1 := by
        rw [hnf, mkReplacement_id, hMagents]
      have hM : maxId (marked ++ [nf]) = maxId agents + 1 := by
        rw [maxId_append, hMagents, maxId_cons, maxId_nil]
        rw [Nat.max_zero, hMnf]
        exact Nat.max_eq_right (Nat.le_succ _)
      have hids2 : ∀ e ∈ ds, e.unique_id ≤ maxId (marked ++ [nf]) := by
        intro e he
        rw [hM]
        exact Nat.le_trans (hids e (List.mem_cons_of_mem d he)) (Nat.le_succ _)
      obtain ⟨reps2, hout, hlen, hmax, hget, hmem⟩ :=
        ih alive (marked ++ [nf]) (k + 1) out kOut h hids2
      have hnfid : ∀ e ∈ ds, nf.unique_id ≠ e.unique_id := by
        intro e he
        rw [hMnf]
        have := hids e (List.mem_cons_of_mem d he)
        omega
      have hsingle : markAll ds [nf] = [nf] := by
        refine markAll_of_not_mem _ _ (fun e he x hx => ?_)
        rcases List.mem_singleton.mp hx with rfl
        exact hnfid e he
      refine ⟨nf :: reps2, ?_, ?_, ?_, ?_, ?_⟩
      · rw [hout, markAll_append_agents, hsingle, markAll_cons, ← hmarked,
          List.append_assoc, List.singleton_append]
      · rw [List.length_cons, hlen, List.length_cons]
      · rw [hmax, hM, List.length_cons]
        omega
      · intro j hj
        cases j with
        | zero =>
          show nf.unique_id = maxId agents + 0 + 1
          rw [hMnf]
        | succ j =>
          have hj2 : j < reps2.length := by
            rw [List.length_cons] at hj
            omega
          show (reps2.get ⟨j, hj2⟩).unique_id = maxId agents + (j + 1) + 1
          rw [hget j hj2, hM]
          omega
      · intro f hf
        rcases List.mem_cons.mp hf with rfl | hf2
        · exact ⟨mkReplacement_group _ _ _, mkReplacement_bankrupt _ _ _,
            c, listChoice_ok_mem hc, mkReplacement_cloneRel _ _ _⟩
        · exact hmem f hf2

end ComplexEconomies

namespace ComplexEconomies

/-- One group round of `exit_and_entry`, characterized. -/
lemma exitEntryGroup_ok_spec (rng : ℕ → ℕ) (g : Group) (agents : List Firm)
    (k : ℕ) (out : List Firm) (kOut : ℕ)
    (h : exitEntryGroup rng g agents k = .ok (out, kOut)) :
    ∃ reps : List Firm,
      out = markAll (deadOf g agents) agents ++ reps ∧
      reps.length = (deadOf g agents).length ∧
      maxId out = maxId agents + (deadOf g agents).length ∧
      (∀ j (hj : j < reps.length),
        (reps.get ⟨j, hj⟩).unique_id = maxId agents + j + 1) ∧
      (∀ f ∈ reps, f.group = g ∧ f.bankrupt = false ∧
        ∃ c, c ∈ aliveOf g agents ∧ cloneRel g f c) := by
  refine processDeadFirms_ok_spec g rng (deadOf g agents) (aliveOf g agents)
    agents k out kOut h (fun d hd => mem_le_maxId (deadOf_subset g agents d hd))

/-- Ids of one dead list are distinct when the population ids are. -/
lemma deadOf_ids_nodup (g : Group) (agents : List Firm)
    (hnd : (agents.map (fun a => a.unique_id)).Nodup) :
    ((deadOf g agents).map (fun a => a.unique_id)).Nodup := by
  rw [deadOf_eq]
  exact ((List.filter_sublist agents).map _).nodup hnd

/-- For a population with distinct ids, an id lands in a filtered sub-list
exactly when its owner satisfies the filter. -/
lemma id_mem_filter_map_iff {P : Firm → Bool} {agents : List Firm}
    (hnd : (agents.map (fun a => a.unique_id)).Nodup) {a : Firm}
    (ha : a ∈ agents) :
    a.unique_id ∈ (agents.filter P).map (fun x => x.unique_id) ↔ P a = true := by
  constructor
  · intro h
    obtain ⟨b, hb, hid⟩ := List.mem_map.mp h
    have hb2 := List.mem_filter.mp hb
    have : b = a := List.inj_on_of_nodup_map hnd hb2.1 ha hid
    exact this ▸ hb2.2
  · intro h
    exact List.mem_map_of_mem _ (List.mem_filter.mpr ⟨ha, h⟩)

/-- Filtering on a group is blind to a transformation fixing that group. -/
lemma filter_group_map_eq {agents : List Firm} {f : Firm → Firm} {g : Group}
    (q : Firm → Bool)
    (hgrp : ∀ a, (f a).group = a.group)
    (hfix : ∀ a ∈ agents, a.group = g → f a = a) :
    (agents.map f).filter (fun x => decide (x.group = g) && q x)
      = agents.filter (fun x => decide (x.group = g) && q x) := by
  induction agents with
  | nil => rfl
  | cons a l ih =>
    have ih2 := ih (fun b hb hbg => hfix b (List.mem_cons_of_mem a hb) hbg)
    by_cases hg : a.group = g
    · have hfa : f a = a := hfix a (List.mem_cons_self a l) hg
      rw [List.map_cons, List.filter_cons, List.filter_cons, hfa, ih2]
    · have h1 : (decide ((f a).group = g) && q (f a)) = false := by
        rw [hgrp a]
        simp [hg]
      have h2 : (decide (a.group = g) && q a) = false := by simp [hg]
      rw [List.map_cons, List.filter_cons, List.filter_cons, h1, h2, ih2]
      simp

end ComplexEconomies

namespace ComplexEconomies

lemma deadPredB_iff (g : Group) (a : Firm) :
    deadPredB g a = true ↔
      a.group = g ∧ a.bankrupt = false ∧ firmIsDead a = true := by
  simp [deadPredB, Bool.and_eq_true, decide_eq_true_eq, Bool.not_eq_true']

lemma exit_and_entry_agents_after_cons (rng : ℕ → ℕ) (agents a1 : List Firm)
    (k1 : ℕ)
    (h1 : exitEntryGroup rng Group.consumption_firm agents 0 = .ok (a1, k1)) :
    exit_and_entry_agents rng agents =
      match exitEntryGroup rng Group.capital_firm a1 k1 with
      | .error e => .error e
      | .ok (a2, _) => .ok a2 := by
  unfold exit_and_entry_agents
  rw [h1]

/-- A successful `exit_and_entry` run, fully characterized: the original
population is kept in place with the bankrupt flag set exactly on live firms
meeting the exit condition, followed by the consumption-sector replacements
and then the capital-sector replacements, with fresh strictly increasing
identifiers and fields cloned from survivors of the matching group. -/
lemma exit_and_entry_agents_ok_spec (rng : ℕ → ℕ) (agents out : List Firm)
    (hnd : (agents.map (fun a => a.unique_id)).Nodup)
    (h : exit_and_entry_agents rng agents = .ok out) :
    ∃ reps1 reps2 : List Firm,
      out = agents.map markDeadFlag ++ reps1 ++ reps2 ∧
      reps1.length = (deadOf Group.consumption_firm agents).length ∧
      reps2.length = (deadOf Group.capital_firm agents).length ∧
      (∀ j (hj : j < reps1.length),
        (reps1.get ⟨j, hj⟩).unique_id = maxId agents + j + 1) ∧
      (∀ j (hj : j < reps2.length),
        (reps2.get ⟨j, hj⟩).unique_id = maxId agents + reps1.length + j + 1) ∧
      (∀ f ∈ reps1, f.group = Group.consumption_firm ∧ f.bankrupt = false ∧
        ∃ c, c ∈ aliveOf Group.consumption_firm agents ∧
          cloneRel Group.consumption_firm f c) ∧
      (∀ f ∈ reps2, f.group = Group.capital_firm ∧ f.bankrupt = false ∧
        ∃ c, c ∈ aliveOf Group.capital_firm agents ∧
          cloneRel Group.capital_firm f c) := by
  cases h1 : exitEntryGroup rng Group.consumption_firm agents 0 with
  | error e =>
    unfold exit_and_entry_agents at h
    rw [h1] at h
    cases h
  | ok p1 =>
    obtain ⟨a1, k1⟩ := p1
    rw [exit_and_entry_agents_after_cons rng agents a1 k1 h1] at h
    cases h2 : exitEntryGroup rng Group.capital_firm a1 k1 with
    | error e => rw [h2] at h; cases h
    | ok p2 =>
      obtain ⟨a2, k2⟩ := p2
      rw [h2] at h
      have hout : a2 = out := Except.ok.inj h
      subst hout
      obtain ⟨reps1, e1, len1, max1, get1, mem1⟩ :=
        exitEntryGroup_ok_spec rng Group.consumption_firm agents 0 a1 k1 h1
      obtain ⟨reps2, e2, len2, max2, get2, mem2⟩ :=
        exitEntryGroup_ok_spec rng Group.capital_firm a1 k1 a2 k2 h2
      have hnds1 := deadOf_ids_nodup Group.consumption_firm agents hnd
      have hnds2 := deadOf_ids_nodup Group.capital_firm agents hnd
      have hmap1 := markAll_eq_map (deadOf Group.consumption_firm agents) hnds1 agents
      rw [hmap1] at e1
      -- the capital-group round sees the same capital firms as the original
      have hgrp1 : ∀ a : Firm,
          ((if a.unique_id ∈ (deadOf Group.consumption_firm agents).map
              (fun x => x.unique_id)
            then ({a with bankrupt := true} : Firm) else a)).group = a.group := by
        intro a
        by_cases hc : a.unique_id ∈ (deadOf Group.consumption_firm agents).map
          (fun x => x.unique_id) <;> simp [hc]
      have hfix1 : ∀ a ∈ agents, a.group = Group.capital_firm →
          (if a.unique_id ∈ (deadOf Group.consumption_firm agents).map
              (fun x => x.unique_id)
            then ({a with bankrupt := true} : Firm) else a) = a := by
        intro a ha hg
        refine if_neg (fun hmem => ?_)
        rw [deadOf_eq] at hmem
        have := ((id_mem_filter_map_iff hnd ha).mp hmem)
        have hgc := ((deadPredB_iff _ _).mp this).1
        rw [hg] at hgc
        cases hgc
      have hreps1cap : ∀ q : Firm → Bool,
          reps1.filter (fun x => decide (x.group = Group.capital_firm) && q x)
            = [] := by
        intro q
        refine List.filter_eq_nil_iff.mpr (fun f hf => ?_)
        have hg := (mem1 f hf).1
        simp [hg]
      have hdead2 : deadOf Group.capital_firm a1
          = deadOf Group.capital_firm agents := by
        rw [deadOf_eq, deadOf_eq, e1, List.filter_append]
        have heq : deadPredB Group.capital_firm = fun x =>
            decide (x.group = Group.capital_firm)
              && (!x.bankrupt && firmIsDead x) := rfl
        rw [heq, hreps1cap, List.append_nil]
        exact filter_group_map_eq _ hgrp1 hfix1
      have halive2 : aliveOf Group.capital_firm a1
          = aliveOf Group.capital_firm agents := by
        rw [aliveOf_eq, aliveOf_eq, e1, List.filter_append]
        have heq : alivePredB Group.capital_firm = fun x =>
            decide (x.group = Group.capital_firm)
              && (!x.bankrupt && !(firmIsDead x)) := rfl
        rw [heq, hreps1cap, List.append_nil]
        exact filter_group_map_eq _ hgrp1 hfix1
      have hreps1ids : ∀ x ∈ reps1, maxId agents < x.unique_id := by
        intro x hx
        obtain ⟨⟨j, hj⟩, hget⟩ := List.mem_iff_get.mp hx
        have := get1 j hj
        rw [hget] at this
        omega
      have hfix2 : markAll (deadOf Group.capital_firm agents) reps1 = reps1 := by
        refine markAll_of_not_mem _ _ (fun d hd x hx => ?_)
        have hdle : d.unique_id ≤ maxId agents :=
          mem_le_maxId (deadOf_subset _ _ d hd)
        have := hreps1ids x hx
        omega
      have hmap2 := markAll_eq_map (deadOf Group.capital_firm agents) hnds2
        (agents.map (fun a =>
          if a.unique_id ∈ (deadOf Group.consumption_firm agents).map
              (fun x => x.unique_id)
          then {a with bankrupt := true} else a))
      have hA : a2 = agents.map markDeadFlag ++ reps1 ++ reps2 := by
        rw [e2, hdead2, e1, markAll_append_agents, hfix2, hmap2, List.map_map]
        congr 1
        congr 1
        refine List.map_congr_left (fun a ha => ?_)
        simp only [Function.comp_apply]
        have c1 : a.unique_id ∈ (deadOf Group.consumption_firm agents).map
            (fun x => x.unique_id) ↔ deadPredB Group.consumption_firm a = true := by
          rw [deadOf_eq]; exact id_mem_filter_map_iff hnd ha
        have c2 : a.unique_id ∈ (deadOf Group.capital_firm agents).map
            (fun x => x.unique_id) ↔ deadPredB Group.capital_firm a = true := by
          rw [deadOf_eq]; exact id_mem_filter_map_iff hnd ha
        by_cases h1a : deadPredB Group.consumption_firm a = true
        · obtain ⟨hg, hb, hd⟩ := (deadPredB_iff _ _).mp h1a
          have hm1 := c1.mpr h1a
          rw [if_pos hm1]
          have hm2 : ({a with bankrupt := true} : Firm).unique_id
              ∉ (deadOf Group.capital_firm agents).map (fun x => x.unique_id) := by
            show a.unique_id ∉ _
            intro hmem
            have hgc := ((deadPredB_iff _ _).mp (c2.mp hmem)).1
            rw [hg] at hgc
            cases hgc
          rw [if_neg hm2]
          unfold markDeadFlag
          rw [if_pos (by rw [hb, hd]; rfl)]
        · by_cases h2a : deadPredB Group.capital_firm a = true
          · obtain ⟨hg, hb, hd⟩ := (deadPredB_iff _ _).mp h2a
            have hm1 : a.unique_id ∉ (deadOf Group.consumption_firm agents).map
                (fun x => x.unique_id) := by
              intro hmem
              have hgc := ((deadPredB_iff _ _).mp (c1.mp hmem)).1
              rw [hg] at hgc
              cases hgc
            rw [if_neg hm1, if_pos (c2.mpr h2a)]
            unfold markDeadFlag
            rw [if_pos (by rw [hb, hd]; rfl)]
          · have hm1 : a.unique_id ∉ (deadOf Group.consumption_firm agents).map
                (fun x => x.unique_id) := fun hmem => h1a (c1.mp hmem)
            rw [if_neg hm1, if_neg (fun hmem => h2a (c2.mp hmem))]
            unfold markDeadFlag
            refine (if_neg (fun hcontra => ?_)).symm
            have hsplit : a.bankrupt = false ∧ firmIsDead a = true := by
              simpa [Bool.and_eq_true, Bool.not_eq_true'] using hcontra
            cases hgr : a.group with
            | consumption_firm =>
              exact h1a ((deadPredB_iff _ _).mpr ⟨hgr, hsplit.1, hsplit.2⟩)
            | capital_firm =>
              exact h2a ((deadPredB_iff _ _).mpr ⟨hgr, hsplit.1, hsplit.2⟩)
      refine ⟨reps1, reps2, hA, len1, ?_, get1, ?_, mem1, ?_⟩
      · rw [len2, hdead2]
      · intro j hj
        rw [get2 j hj, max1, len1]
      · intro f hf
        obtain ⟨hg, hb, c, hc, hcl⟩ := mem2 f hf
        exact ⟨hg, hb, c, halive2 ▸ hc, hcl⟩

end ComplexEconomies

namespace ComplexEconomies

/-- C3: `exit_and_entry`, run once per period independently per group, marks
bankrupt exactly the live firms with `market_share <= 0` or
`liquid_assets < 0` (retaining them in the population), and for each such
firm appends to the scheduler a replacement of the same group that clones the
drawn survivor: its liquid assets and market share always, additionally its
capital stock for consumption-sector replacements, and its machine
labour-productivity coefficient and machine price (copied after
construction) for capital-sector replacements. -/
theorem exit_and_entry_marks_and_replaces (rng : ℕ → ℕ) (agents out : List Firm)
    (hnd : (agents.map (fun a => a.unique_id)).Nodup)
    (h : exit_and_entry_agents rng agents = .ok out) :
    ∃ reps1 reps2 : List Firm,
      out = agents.map markDeadFlag ++ reps1 ++ reps2 ∧
      reps1.length = (deadOf Group.consumption_firm agents).length ∧
      reps2.length = (deadOf Group.capital_firm agents).length ∧
      (∀ f ∈ reps1, f.group = Group.consumption_firm ∧ f.bankrupt = false ∧
        ∃ c, c ∈ aliveOf Group.consumption_firm agents ∧
          f.liquid_assets = c.liquid_assets ∧ f.market_share = c.market_share ∧
          f.capital_stock = c.capital_stock) ∧
      (∀ f ∈ reps2, f.group = Group.capital_firm ∧ f.bankrupt = false ∧
        ∃ c, c ∈ aliveOf Group.capital_firm agents ∧
          f.liquid_assets = c.liquid_assets ∧ f.market_share = c.market_share ∧
          f.machine.labour_productivity_coefficient
              = c.machine.labour_productivity_coefficient ∧
          f.machine.price = c.machine.price) := by
  obtain ⟨r1, r2, hout, l1, l2, _, _, m1, m2⟩ :=
    exit_and_entry_agents_ok_spec rng agents out hnd h
  refine ⟨r1, r2, hout, l1, l2, ?_, ?_⟩
  · intro f hf
    obtain ⟨hg, hb, c, hc, hcl⟩ := m1 f hf
    exact ⟨hg, hb, c, hc, hcl.1, hcl.2.1, hcl.2.2.1 rfl⟩
  · intro f hf
    obtain ⟨hg, hb, c, hc, hcl⟩ := m2 f hf
    exact ⟨hg, hb, c, hc, hcl.1, hcl.2.1, (hcl.2.2.2 rfl).1, (hcl.2.2.2 rfl).2⟩

/-- C5: every replacement firm receives an identifier strictly greater than
every identifier present in the population at its creation — in particular
strictly greater than every original identifier (both groups, bankrupt firms
included, whose identifiers the marking pass preserves) — so successive
replacements within one period carry distinct, strictly increasing
identifiers. -/
theorem exit_and_entry_fresh_identifiers (rng : ℕ → ℕ) (agents out : List Firm)
    (hnd : (agents.map (fun a => a.unique_id)).Nodup)
    (h : exit_and_entry_agents rng agents = .ok out) :
    ∃ reps : List Firm,
      out = agents.map markDeadFlag ++ reps ∧
      (∀ f ∈ reps, ∀ a ∈ agents, a.unique_id < f.unique_id) ∧
      List.Pairwise (fun a b => a.unique_id < b.unique_id) reps := by
  obtain ⟨r1, r2, hout, l1, l2, g1, g2, _, _⟩ :=
    exit_and_entry_agents_ok_spec rng agents out hnd h
  have hr1 : ∀ f ∈ r1, maxId agents < f.unique_id
      ∧ f.unique_id ≤ maxId agents + r1.length := by
    intro f hf
    obtain ⟨⟨j, hj⟩, hget⟩ := List.mem_iff_get.mp hf
    have := g1 j hj
    rw [hget] at this
    omega
  have hr2 : ∀ f ∈ r2, maxId agents + r1.length < f.unique_id := by
    intro f hf
    obtain ⟨⟨j, hj⟩, hget⟩ := List.mem_iff_get.mp hf
    have := g2 j hj
    rw [hget] at this
    omega
  refine ⟨r1 ++ r2, by rw [hout, List.append_assoc], ?_, ?_⟩
  · intro f hf a ha
    have hle := mem_le_maxId ha
    rcases List.mem_append.mp hf with hf1 | hf2
    · have := (hr1 f hf1).1
      omega
    · have := hr2 f hf2
      omega
  · rw [List.pairwise_append]
    refine ⟨?_, ?_, ?_⟩
    · rw [List.pairwise_iff_get]
      intro i j hij
      have hi : (r1.get i).unique_id = maxId agents + i.1 + 1 := g1 i.1 i.2
      have hj : (r1.get j).unique_id = maxId agents + j.1 + 1 := g1 j.1 j.2
      have hij2 : i.1 < j.1 := hij
      omega
    · rw [List.pairwise_iff_get]
      intro i j hij
      have hi : (r2.get i).unique_id = maxId agents + r1.length + i.1 + 1 :=
        g2 i.1 i.2
      have hj : (r2.get j).unique_id = maxId agents + r1.length + j.1 + 1 :=
        g2 j.1 j.2
      have hij2 : i.1 < j.1 := hij
      omega
    · intro a ha b hb
      have h1 := (hr1 a ha).2
      have h2 := hr2 b hb
      omega

/-- C9: the survivor pool of one `exit_and_entry` group round is fixed
before any replacement is made — every clone source is a firm of the
original population that is live and fails the exit condition, hence never a
firm marked dead in that round (in particular a dead firm never clones
itself) and never a replacement created earlier in the round. -/
theorem exit_and_entry_survivor_pool_fixed (rng : ℕ → ℕ) (agents out : List Firm)
    (hnd : (agents.map (fun a => a.unique_id)).Nodup)
    (h : exit_and_entry_agents rng agents = .ok out) :
    ∃ reps : List Firm,
      out = agents.map markDeadFlag ++ reps ∧
      ∀ f ∈ reps, ∃ c, c ∈ agents ∧ c.group = f.group ∧ c.bankrupt = false ∧
        firmIsDead c = false ∧ c ∈ aliveOf f.group agents ∧
        cloneRel f.group f c := by
  obtain ⟨r1, r2, hout, _, _, _, _, m1, m2⟩ :=
    exit_and_entry_agents_ok_spec rng agents out hnd h
  refine ⟨r1 ++ r2, by rw [hout, List.append_assoc], ?_⟩
  intro f hf
  rcases List.mem_append.mp hf with hf1 | hf2
  · obtain ⟨hg, _, c, hc, hcl⟩ := m1 f hf1
    obtain ⟨hca, hcg, hcb, hcd⟩ := (mem_aliveOf_iff _ _ _).mp hc
    refine ⟨c, hca, ?_, hcb, hcd, ?_, ?_⟩
    · rw [hg, hcg]
    · rw [hg]; exact hc
    · rw [hg]; exact hcl
  · obtain ⟨hg, _, c, hc, hcl⟩ := m2 f hf2
    obtain ⟨hca, hcg, hcb, hcd⟩ := (mem_aliveOf_iff _ _ _).mp hc
    refine ⟨c, hca, ?_, hcb, hcd, ?_, ?_⟩
    · rw [hg, hcg]
    · rw [hg]; exact hc
    · rw [hg]; exact hcl

lemma listChoice_error {l : List Firm} {r : ℕ} {e : PyErr}
    (h : listChoice l r = .error e) : e = PyErr.indexError := by
  unfold listChoice at h
  split at h
  · exact (Except.error.inj h).symm
  · cases h

/-- The replacement loop surfaces no error other than the empty-draw
`IndexError`. -/
lemma processDeadFirms_error_spec (g : Group) (rng : ℕ → ℕ) :
    ∀ (dead alive agents : List Firm) (k : ℕ) (e : PyErr),
      processDeadFirms g rng dead alive agents k = .error e →
      e = PyErr.indexError := by
  intro dead
  induction dead with
  | nil =>
    intro alive agents k e h
    simp [processDeadFirms] at h
  | cons d ds ih =>
    intro alive agents k e h
    rw [processDeadFirms] at h
    cases hc : listChoice alive (rng k) with
    | error e2 =>
      rw [hc] at h
      have h2 : e2 = e := Except.error.inj h
      rw [← h2]
      exact listChoice_error hc
    | ok c =>
      rw [hc] at h
      exact ih alive _ (k + 1) e h

lemma exitEntryGroup_error_spec {rng : ℕ → ℕ} {g : Group} {agents : List Firm}
    {k : ℕ} {e : PyErr} (h : exitEntryGroup rng g agents k = .error e) :
    e = PyErr.indexError :=
  processDeadFirms_error_spec g rng (deadOf g agents) (aliveOf g agents)
    agents k e h

/-- The consumption-group round neither adds to nor removes from the capital
group: its marking touches only consumption firms (identifiers distinct) and
its replacements are consumption firms, so the capital round sees the
original capital dead and survivor sets. -/
lemma capital_round_preserved (rng : ℕ → ℕ) (agents a1 : List Firm) (k1 : ℕ)
    (hnd : (agents.map (fun a => a.unique_id)).Nodup)
    (h1 : exitEntryGroup rng Group.consumption_firm agents 0 = .ok (a1, k1)) :
    deadOf Group.capital_firm a1 = deadOf Group.capital_firm agents ∧
    aliveOf Group.capital_firm a1 = aliveOf Group.capital_firm agents := by
  obtain ⟨reps1, e1, _, _, _, mem1⟩ :=
    exitEntryGroup_ok_spec rng Group.consumption_firm agents 0 a1 k1 h1
  have hnds1 := deadOf_ids_nodup Group.consumption_firm agents hnd
  have hmap1 := markAll_eq_map (deadOf Group.consumption_firm agents) hnds1 agents
  rw [hmap1] at e1
  have hgrp1 : ∀ a : Firm,
      ((if a.unique_id ∈ (deadOf Group.consumption_firm agents).map
          (fun x => x.unique_id)
        then ({a with bankrupt := true} : Firm) else a)).group = a.group := by
    intro a
    by_cases hc : a.unique_id ∈ (deadOf Group.consumption_firm agents).map
      (fun x => x.unique_id) <;> simp [hc]
  have hfix1 : ∀ a ∈ agents, a.group = Group.capital_firm →
      (if a.unique_id ∈ (deadOf Group.consumption_firm agents).map
          (fun x => x.unique_id)
        then ({a with bankrupt := true} : Firm) else a) = a := by
    intro a ha hg
    refine if_neg (fun hmem => ?_)
    rw [deadOf_eq] at hmem
    have hpd := (id_mem_filter_map_iff hnd ha).mp hmem
    have hgc := ((deadPredB_iff _ _).mp hpd).1
    rw [hg] at hgc
    cases hgc
  have hreps1cap : ∀ q : Firm → Bool,
      reps1.filter (fun x => decide (x.group = Group.capital_firm) && q x)
        = [] := by
    intro q
    refine List.filter_eq_nil_iff.mpr (fun f hf => ?_)
    have hg := (mem1 f hf).1
    simp [hg]
  constructor
  · rw [deadOf_eq, deadOf_eq, e1, List.filter_append]
    have heq : deadPredB Group.capital_firm = fun x =>
        decide (x.group = Group.capital_firm)
          && (!x.bankrupt && firmIsDead x) := rfl
    rw [heq, hreps1cap, List.append_nil]
    exact filter_group_map_eq _ hgrp1 hfix1
  · rw [aliveOf_eq, aliveOf_eq, e1, List.filter_append]
    have heq : alivePredB Group.capital_firm = fun x =>
        decide (x.group = Group.capital_firm)
          && (!x.bankrupt && !(firmIsDead x)) := rfl
    rw [heq, hreps1cap, List.append_nil]
    exact filter_group_map_eq _ hgrp1 hfix1

/-- C4 (amended): when either group holds a dead firm but no survivor,
`exit_and_entry` does not fail silently — it raises the built-in
empty-sequence `IndexError` coming from `random.choice` (for the capital
group, after a consumption round that either already raised the same
`IndexError` or left the capital group untouched) — but that is the generic
sequence-indexing error, not a dedicated "no survivors available"
condition. -/
theorem exit_and_entry_no_survivors_raises (rng : ℕ → ℕ) (g : Group)
    (agents : List Firm)
    (hnd : (agents.map (fun a => a.unique_id)).Nodup)
    (hdead : deadOf g agents ≠ [])
    (halive : aliveOf g agents = []) :
    exit_and_entry_agents rng agents = .error PyErr.indexError := by
  have hgroup : ∀ (agents2 : List Firm) (k : ℕ),
      deadOf g agents2 ≠ [] → aliveOf g agents2 = [] →
      exitEntryGroup rng g agents2 k = .error PyErr.indexError := by
    intro agents2 k hd ha
    unfold exitEntryGroup
    cases hdl : deadOf g agents2 with
    | nil => exact absurd hdl hd
    | cons d ds =>
      rw [ha, processDeadFirms, listChoice_nil]
  cases g with
  | consumption_firm =>
    unfold exit_and_entry_agents
    rw [hgroup agents 0 hdead halive]
  | capital_firm =>
    cases h1 : exitEntryGroup rng Group.consumption_firm agents 0 with
    | error e =>
      unfold exit_and_entry_agents
      rw [h1, exitEntryGroup_error_spec h1]
    | ok p1 =>
      obtain ⟨a1, k1⟩ := p1
      rw [exit_and_entry_agents_after_cons rng agents a1 k1 h1]
      obtain ⟨hd2, ha2⟩ := capital_round_preserved rng agents a1 k1 hnd h1
      have hcap : exitEntryGroup rng Group.capital_firm a1 k1
          = .error PyErr.indexError :=
        hgroup a1 k1 (by rw [hd2]; exact hdead) (by rw [ha2]; exact halive)
      rw [hcap]

end ComplexEconomies

namespace ComplexEconomies

/-- Witness for C3 at a concrete population and random stream. -/
theorem exit_and_entry_marks_and_replaces_witness :
    ∃ reps1 reps2 : List Firm,
      outW = agentsW.map markDeadFlag ++ reps1 ++ reps2 ∧
      reps1.length = (deadOf Group.consumption_firm agentsW).length ∧
      reps2.length = (deadOf Group.capital_firm agentsW).length ∧
      (∀ f ∈ reps1, f.group = Group.consumption_firm ∧ f.bankrupt = false ∧
        ∃ c, c ∈ aliveOf Group.consumption_firm agentsW ∧
          f.liquid_assets = c.liquid_assets ∧ f.market_share = c.market_share ∧
          f.capital_stock = c.capital_stock) ∧
      (∀ f ∈ reps2, f.group = Group.capital_firm ∧ f.bankrupt = false ∧
        ∃ c, c ∈ aliveOf Group.capital_firm agentsW ∧
          f.liquid_assets = c.liquid_assets ∧ f.market_share = c.market_share ∧
          f.machine.labour_productivity_coefficient
              = c.machine.labour_productivity_coefficient ∧
          f.machine.price = c.machine.price) :=
  exit_and_entry_marks_and_replaces rngW agentsW outW (by decide) (by decide)

/-- Witness for C5 at a concrete population and random stream. -/
theorem exit_and_entry_fresh_identifiers_witness :
    ∃ reps : List Firm,
      outW = agentsW.map markDeadFlag ++ reps ∧
      (∀ f ∈ reps, ∀ a ∈ agentsW, a.unique_id < f.unique_id) ∧
      List.Pairwise (fun a b => a.unique_id < b.unique_id) reps :=
  exit_and_entry_fresh_identifiers rngW agentsW outW (by decide) (by decide)

/-- Witness for C9 at a concrete population and random stream. -/
theorem exit_and_entry_survivor_pool_fixed_witness :
    ∃ reps : List Firm,
      outW = agentsW.map markDeadFlag ++ reps ∧
      ∀ f ∈ reps, ∃ c, c ∈ agentsW ∧ c.group = f.group ∧ c.bankrupt = false ∧
        firmIsDead c = false ∧ c ∈ aliveOf f.group agentsW ∧
        cloneRel f.group f c :=
  exit_and_entry_survivor_pool_fixed rngW agentsW outW (by decide) (by decide)

/-- Witness for C4 (amended) at a concrete population whose capital group
has a dead firm and no survivor. -/
theorem exit_and_entry_no_survivors_raises_witness :
    exit_and_entry_agents rngW agentsNC = .error PyErr.indexError :=
  exit_and_entry_no_survivors_raises rngW Group.capital_firm agentsNC
    (by decide) (by decide) (by decide)

/-- Counterexample for C4 as stated: with a dead consumption firm and no
survivor, the code surfaces the built-in `IndexError` of the empty random
draw — the same error any out-of-range sequence access raises — and not a
dedicated "no survivors available" condition. -/
theorem exit_and_entry_no_survivors_cx :
    exit_and_entry_agents rngW agentsNS = .error PyErr.indexError ∧
    PyErr.indexError ≠ PyErr.noSurvivorsAvailable :=
  ⟨by decide, by decide⟩

end ComplexEconomies

namespace ComplexEconomies

lemma except_bind_ok {α β : Type} (a : α) (f : α → Except PyErr β) :
    (Except.ok a : Except PyErr α) >>= f = f a := rfl

lemma except_bind_error {α β : Type} (e : PyErr) (f : α → Except PyErr β) :
    (Except.error e : Except PyErr α) >>= f = Except.error e := rfl

/-- C2: after `update_employment` runs (stage 3 of every period),
employment = min(labour_demand, labour_supply),
unemployment = max(0, labour_supply − employment),
unemployment_rate = unemployment / labour_supply, and delta_unemployment is
the new rate minus the previous rate; nothing else changes. -/
theorem update_employment_spec (s s' : ModelState)
    (h : update_employment s = .ok s') :
    s'.employment = min s.labour_demand s.labour_supply ∧
    s'.unemployment = max 0 (s.labour_supply - s'.employment) ∧
    s'.unemployment_rate = s'.unemployment / s.labour_supply ∧
    s'.delta_unemployment = s'.unemployment_rate - s.unemployment_rate ∧
    s' = {s with
      employment := s'.employment, unemployment := s'.unemployment,
      unemployment_rate := s'.unemployment_rate,
      delta_unemployment := s'.delta_unemployment} := by
  simp only [update_employment] at h
  by_cases hls : s.labour_supply = 0
  · rw [if_pos hls] at h
    cases h
  · rw [if_neg hls] at h
    have h2 := Except.ok.inj h
    subst h2
    exact ⟨rfl, rfl, rfl, rfl, rfl⟩

/-- Witness for C2 at a concrete state. -/
theorem update_employment_spec_witness :
    s2w'.employment = min s2w.labour_demand s2w.labour_supply ∧
    s2w'.unemployment = max 0 (s2w.labour_supply - s2w'.employment) ∧
    s2w'.unemployment_rate = s2w'.unemployment / s2w.labour_supply ∧
    s2w'.delta_unemployment = s2w'.unemployment_rate - s2w.unemployment_rate ∧
    s2w' = {s2w with
      employment := s2w'.employment, unemployment := s2w'.unemployment,
      unemployment_rate := s2w'.unemployment_rate,
      delta_unemployment := s2w'.delta_unemployment} :=
  update_employment_spec s2w s2w'
    (by simp [update_employment, s2w, s2w', base])

/-- C6: `update_sector_competitiveness` stores, for each of the two groups,
the market-share-weighted sum of competitiveness over the live firms of the
group, rounded to exactly two decimal places (the result is an integer
number of hundredths), and changes nothing else. -/
theorem update_sector_competitiveness_spec (s : ModelState) :
    (update_sector_competitiveness s).avg_comp_competitiveness
        = round2 ((s.agents.filter (fun a =>
            decide (a.group = Group.consumption_firm) && !a.bankrupt)).map
            (fun f => f.competitiveness * f.market_share)).sum ∧
    (update_sector_competitiveness s).avg_cap_competitiveness
        = round2 ((s.agents.filter (fun a =>
            decide (a.group = Group.capital_firm) && !a.bankrupt)).map
            (fun f => f.competitiveness * f.market_share)).sum ∧
    (∃ n : ℤ, (update_sector_competitiveness s).avg_comp_competitiveness
        = (n : ℚ) / 100) ∧
    (∃ n : ℤ, (update_sector_competitiveness s).avg_cap_competitiveness
        = (n : ℚ) / 100) ∧
    update_sector_competitiveness s = {s with
      avg_comp_competitiveness :=
        (update_sector_competitiveness s).avg_comp_competitiveness,
      avg_cap_competitiveness :=
        (update_sector_competitiveness s).avg_cap_competitiveness} := by
  refine ⟨?_, ?_, ⟨_, rfl⟩, ⟨_, rfl⟩, rfl⟩
  · show compute_sector_competitiveness s Group.consumption_firm = _
    unfold compute_sector_competitiveness get_group
    rw [getGroupList_false_eq]
  · show compute_sector_competitiveness s Group.capital_firm = _
    unfold compute_sector_competitiveness get_group
    rw [getGroupList_false_eq]

/-- C8: `compute_consumption` returns household consumption
(market wage times employment) plus government consumption (wage share times
unemployment under the "welfare" social policy, wage share times market wage
times labour supply otherwise), and `update_consumption` stores exactly this
value in the consumption field. -/
theorem compute_consumption_spec (s : ModelState) :
    compute_consumption s = s.market_wage * s.employment +
      (if s.social_policy = "welfare" then s.wage_share * s.unemployment
       else s.wage_share * s.market_wage * s.labour_supply) ∧
    update_consumption s = {s with consumption := compute_consumption s} :=
  ⟨rfl, rfl⟩

/-- C10: model construction requires a nonzero initial labour supply — the
initial unemployment rate divides the zero-initialized unemployment by
`employment`, which `__init__` sets to the initial labour supply — so
construction with labour supply 0 fails with a division error, while for any
nonzero labour supply the constructed state has employment equal to the
labour supply, zero unemployment and zero unemployment rate. -/
theorem init_requires_labour_supply (p : Parameters) (mw cpi alp la cs ls : ℚ)
    (h1 : p.n_consumption_firms ≠ 0) (h2 : p.n_capital_firms ≠ 0)
    (hls : ls ≠ 0) :
    init p mw cpi alp la cs 0 = .error PyErr.divisionError ∧
    ∃ m : ModelState, init p mw cpi alp la cs ls = .ok m ∧
      m.employment = ls ∧ m.unemployment = 0 ∧ m.unemployment_rate = 0 := by
  have hsum : p.n_consumption_firms + p.n_capital_firms ≠ 0 := by omega
  constructor
  · simp only [init]
    rw [if_neg hsum, if_neg h1, if_neg h2]
    simp
  · simp only [init]
    rw [if_neg hsum, if_neg h1, if_neg h2, if_neg hls]
    exact ⟨_, rfl, rfl, rfl, zero_div ls⟩

/-- Witness for C10 at concrete parameters. -/
theorem init_requires_labour_supply_witness :
    init p10 1 1 1 1 1 0 = .error PyErr.divisionError ∧
    ∃ m : ModelState, init p10 1 1 1 1 1 2 = .ok m ∧
      m.employment = 2 ∧ m.unemployment = 0 ∧ m.unemployment_rate = 0 :=
  init_requires_labour_supply p10 1 1 1 1 1 2 (by decide) (by decide) (by decide)

end ComplexEconomies

namespace ComplexEconomies

lemma compute_average_price_ok {s : ModelState} {g : Group} {v : ℚ}
    (h : compute_average_price s g false = .ok v) :
    v = ((s.agents.filter (fun a => decide (a.group = g) && !a.bankrupt)).map
          (fun f => f.price)).sum
        / (((s.agents.filter (fun a => decide (a.group = g) && !a.bankrupt)).map
          (fun f => f.price)).length : ℚ) := by
  have h2 : (if ((get_group s g).map (fun firm => firm.price)).length = 0
      then (Except.error PyErr.divisionError : Except PyErr ℚ)
      else Except.ok (((get_group s g).map (fun firm => firm.price)).sum
        / (((get_group s g).map (fun firm => firm.price)).length : ℚ)))
      = Except.ok v := h
  by_cases hl : ((get_group s g).map (fun firm => firm.price)).length = 0
  · rw [if_pos hl] at h2
    cases h2
  · rw [if_neg hl] at h2
    have hv := Except.ok.inj h2
    rw [← hv]
    unfold get_group
    rw [getGroupList_false_eq]

/-- C7: `update_average_prices` stores in `cpi` the unweighted mean price
over live consumption firms, in `delta_cpi` the relative change
(new CPI − old CPI) / old CPI against the pre-update value, and in
`avg_cap_price` the unweighted mean price over live capital firms, kept
separate and without a delta; nothing else changes. -/
theorem update_average_prices_spec (s s' : ModelState)
    (h : update_average_prices s = .ok s') :
    s'.cpi = ((s.agents.filter (fun a =>
          decide (a.group = Group.consumption_firm) && !a.bankrupt)).map
          (fun f => f.price)).sum
        / (((s.agents.filter (fun a =>
          decide (a.group = Group.consumption_firm) && !a.bankrupt)).map
          (fun f => f.price)).length : ℚ) ∧
    s'.delta_cpi = (s'.cpi - s.cpi) / s.cpi ∧
    s'.avg_cap_price = ((s.agents.filter (fun a =>
          decide (a.group = Group.capital_firm) && !a.bankrupt)).map
          (fun f => f.price)).sum
        / (((s.agents.filter (fun a =>
          decide (a.group = Group.capital_firm) && !a.bankrupt)).map
          (fun f => f.price)).length : ℚ) ∧
    s' = {s with
      cpi := s'.cpi, delta_cpi := s'.delta_cpi,
      avg_cap_price := s'.avg_cap_price} := by
  simp only [update_average_prices] at h
  cases hc1 : compute_average_price s Group.consumption_firm false with
  | error e =>
    rw [hc1] at h
    cases (show (Except.error e : Except PyErr ModelState) = Except.ok s' from h)
  | ok v1 =>
    rw [hc1] at h
    simp only [except_bind_ok] at h
    by_cases hz : s.cpi = 0
    · rw [if_pos hz] at h
      cases (show (Except.error PyErr.divisionError : Except PyErr ModelState)
        = Except.ok s' from h)
    · rw [if_neg hz] at h
      cases hc2 : compute_average_price s Group.capital_firm false with
      | error e =>
        rw [hc2] at h
        cases (show (Except.error e : Except PyErr ModelState)
          = Except.ok s' from h)
      | ok v2 =>
        rw [hc2] at h
        have h2 : ({s with
            delta_cpi := (v1 - s.cpi) / s.cpi, cpi := v1,
            avg_cap_price := v2} : ModelState) = s' := Except.ok.inj h
        subst h2
        exact ⟨compute_average_price_ok hc1, rfl, compute_average_price_ok hc2, rfl⟩

/-- Witness for C7 at a concrete state. -/
theorem update_average_prices_spec_witness :
    s7w'.cpi = ((s7w.agents.filter (fun a =>
          decide (a.group = Group.consumption_firm) && !a.bankrupt)).map
          (fun f => f.price)).sum
        / (((s7w.agents.filter (fun a =>
          decide (a.group = Group.consumption_firm) && !a.bankrupt)).map
          (fun f => f.price)).length : ℚ) ∧
    s7w'.delta_cpi = (s7w'.cpi - s7w.cpi) / s7w.cpi ∧
    s7w'.avg_cap_price = ((s7w.agents.filter (fun a =>
          decide (a.group = Group.capital_firm) && !a.bankrupt)).map
          (fun f => f.price)).sum
        / (((s7w.agents.filter (fun a =>
          decide (a.group = Group.capital_firm) && !a.bankrupt)).map
          (fun f => f.price)).length : ℚ) ∧
    s7w' = {s7w with
      cpi := s7w'.cpi, delta_cpi := s7w'.delta_cpi,
      avg_cap_price := s7w'.avg_cap_price} :=
  update_average_prices_spec s7w s7w'
    (by simp [update_average_prices, compute_average_price, get_group,
      getGroupList, except_bind_ok, s7w, s7w', base, fCons1, fCap0])

end ComplexEconomies

namespace ComplexEconomies

lemma map_erase_bind_congr (e : Except PyErr ℚ)
    (f g : ℚ → Except PyErr ModelState)
    (h : ∀ v, (f v).map eraseAgents = (g v).map eraseAgents) :
    (e >>= f).map eraseAgents = (e >>= g).map eraseAgents := by
  cases e with
  | error e => rfl
  | ok v => exact h v

/-- C1 (amended): every aggregation function that reads the population
through `get_group` — `update_average_prices`, `update_avg_ulc` (given that
the delegated unit-labour-cost function itself ignores the population
change), `update_average_labour_productivity`,
`update_sector_competitiveness`, `aggregate_investment`,
`aggregate_production`, `aggregate_inventories` — computes identical
aggregate values on two populations with the same live firms, so bankrupt
agents contribute nothing to those aggregates; `aggregate_labour_demand`,
however, sums `labour_demand` over the whole scheduler population, so a
bankrupt agent shifts its value by exactly that agent's labour demand. -/
theorem aggregation_live_only (s : ModelState) (l2 : List Firm)
    (ulc : Machine → ModelState → ℚ)
    (hlive : liveFirms l2 = liveFirms s.agents)
    (hulc : ∀ m : Machine, ulc m {s with agents := l2} = ulc m s) :
    (update_average_prices {s with agents := l2}).map eraseAgents
        = (update_average_prices s).map eraseAgents ∧
    (update_avg_ulc ulc {s with agents := l2}).map eraseAgents
        = (update_avg_ulc ulc s).map eraseAgents ∧
    (update_average_labour_productivity {s with agents := l2}).map eraseAgents
        = (update_average_labour_productivity s).map eraseAgents ∧
    eraseAgents (update_sector_competitiveness {s with agents := l2})
        = eraseAgents (update_sector_competitiveness s) ∧
    eraseAgents (aggregate_investment {s with agents := l2})
        = eraseAgents (aggregate_investment s) ∧
    eraseAgents (aggregate_production {s with agents := l2})
        = eraseAgents (aggregate_production s) ∧
    eraseAgents (aggregate_inventories {s with agents := l2})
        = eraseAgents (aggregate_inventories s) ∧
    (∀ (l : List Firm) (b : Firm), b.bankrupt = true →
      (aggregate_labour_demand {s with agents := l ++ [b]}).labour_demand
        = (aggregate_labour_demand {s with agents := l}).labour_demand
          + b.labour_demand) := by
  have hag : ({s with agents := l2} : ModelState).agents = l2 := rfl
  have hcpi : ({s with agents := l2} : ModelState).cpi = s.cpi := rfl
  have halp : ({s with agents := l2} : ModelState).avg_labour_prod
      = s.avg_labour_prod := rfl
  have hgg : ∀ g : Group, getGroupList l2 g false
      = getGroupList s.agents g false := by
    intro g
    rw [getGroupList_false_eq, getGroupList_false_eq]
    have hsplit : ∀ l : List Firm,
        l.filter (fun a => decide (a.group = g) && !a.bankrupt)
          = (l.filter (fun f => !f.bankrupt)).filter
              (fun a => decide (a.group = g)) :=
      fun l => (List.filter_filter _ l).symm
    rw [hsplit, hsplit]
    show (liveFirms l2).filter _ = (liveFirms s.agents).filter _
    rw [hlive]
  have hgrp : ∀ g : Group, get_group {s with agents := l2} g = get_group s g := by
    intro g
    unfold get_group
    rw [hag, hgg]
  refine ⟨?_, ?_, ?_, ?_, ?_, ?_, ?_, ?_⟩
  · have hcap : ∀ (g : Group) (w : Bool),
        compute_average_price {s with agents := l2} g w
          = compute_average_price s g w := by
      intro g w
      unfold compute_average_price
      rw [hgrp]
    unfold update_average_prices
    simp only [hcap, hcpi]
    refine map_erase_bind_congr _ _ _ (fun v1 => ?_)
    by_cases hz : s.cpi = 0
    · rw [if_pos hz, if_pos hz]
      rfl
    · rw [if_neg hz, if_neg hz]
      refine map_erase_bind_congr _ _ _ (fun v2 => ?_)
      refine map_erase_bind_congr _ _ _ (fun v3 => ?_)
      rfl
  · simp only [update_avg_ulc]
    rw [hgrp]
    have hmap : (get_group s .capital_firm).map
          (fun a => ulc a.machine {s with agents := l2})
        = (get_group s .capital_firm).map (fun a => ulc a.machine s) :=
      List.map_congr_left (fun a _ => hulc a.machine)
    rw [hmap]
    by_cases hL : ((get_group s .capital_firm).map
        (fun a => ulc a.machine s)).length = 0
    · rw [if_pos hL, if_pos hL]
    · rw [if_neg hL, if_neg hL]
      rfl
  · simp only [update_average_labour_productivity]
    rw [hgrp]
    by_cases hL : (get_group s .capital_firm).length = 0
    · rw [if_pos hL, if_pos hL]
    · rw [if_neg hL, if_neg hL]
      by_cases hz : s.avg_labour_prod = 0
      · rw [if_pos hz, if_pos hz]
      · rw [if_neg hz, if_neg hz]
        rfl
  · unfold update_sector_competitiveness compute_sector_competitiveness
    rw [hgrp, hgrp]
    rfl
  · simp only [aggregate_investment]
    rw [hgrp]
    rfl
  · unfold aggregate_production
    rw [hgrp]
    rfl
  · unfold aggregate_inventories
    rw [hgrp]
    rfl
  · intro l b hb
    unfold aggregate_labour_demand
    simp [List.map_append, List.sum_append]

end ComplexEconomies

namespace ComplexEconomies

/-- Witness for C1 (amended) at a concrete state, live-preserving population
change and unit-labour-cost function. -/
theorem aggregation_live_only_witness :
    (update_average_prices {s1w with agents := l2W}).map eraseAgents
        = (update_average_prices s1w).map eraseAgents ∧
    (update_avg_ulc ulcW {s1w with agents := l2W}).map eraseAgents
        = (update_avg_ulc ulcW s1w).map eraseAgents ∧
    (update_average_labour_productivity {s1w with agents := l2W}).map eraseAgents
        = (update_average_labour_productivity s1w).map eraseAgents ∧
    eraseAgents (update_sector_competitiveness {s1w with agents := l2W})
        = eraseAgents (update_sector_competitiveness s1w) ∧
    eraseAgents (aggregate_investment {s1w with agents := l2W})
        = eraseAgents (aggregate_investment s1w) ∧
    eraseAgents (aggregate_production {s1w with agents := l2W})
        = eraseAgents (aggregate_production s1w) ∧
    eraseAgents (aggregate_inventories {s1w with agents := l2W})
        = eraseAgents (aggregate_inventories s1w) ∧
    (∀ (l : List Firm) (b : Firm), b.bankrupt = true →
      (aggregate_labour_demand {s1w with agents := l ++ [b]}).labour_demand
        = (aggregate_labour_demand {s1w with agents := l}).labour_demand
          + b.labour_demand) :=
  aggregation_live_only s1w l2W ulcW (by decide) (fun _ => rfl)

/-- Counterexample for C1 as stated: two states with identical scalars and
identical live agents, differing only in a bankrupt agent's labour demand,
give different `aggregate_labour_demand` values — the sum is NOT unchanged
by the labour-demand values of bankrupt agents. -/
theorem aggregate_labour_demand_reads_bankrupt_cx :
    b5.bankrupt = true ∧
    liveFirms st1.agents = liveFirms st2.agents ∧
    eraseAgents st1 = eraseAgents st2 ∧
    (aggregate_labour_demand st1).labour_demand
      ≠ (aggregate_labour_demand st2).labour_demand := by
  refine ⟨by decide, by decide, by decide, ?_⟩
  simp [aggregate_labour_demand, st1, st2, b0, b5, fCons1, base]

end ComplexEconomies
